import Mathlib

/-!
Verification of the Companion Control Automation Graph Engine core against its
source: the action-instance tree (`FragmentActionInstance`), and the
`ControlsController` command handlers (copy, move, swap, delete, learn
deduplication, trigger reordering).

Modelling conventions:
* nanoid-generated instance ids are modelled as natural numbers drawn from a
  fresh-id counter threaded through cloning: an id is "fresh" when it is at
  least the current counter value, and all pre-existing ids are below it.
* Option values (`Record<string, any>`) are modelled as association lists from
  keys to opaque numeric payloads; only structural equality of options matters
  to the claims.
* Fire-and-forget RPC notifications to connections are modelled as a trace of
  emitted notifications in program order.
-/

/-- An action definition as resolved from the definition registry
(`getActionDefinition(connectionId, kind)`); only the child-group capability
is relevant to the tree code. -/
structure ActionDefinition where
  supportsChildActionGroups : List String
deriving DecidableEq

/-- The definition registry interface consumed by the tree:
`(connectionId, actionKind) -> definition or not-found`. -/
def Defs : Type := String → String → Option ActionDefinition

/-- Stored (JSON) form of an action instance, `ActionInstance` in the shared
model: `{ id, instance, action, options, disabled, children }`, where
`children` maps group ids to lists of stored actions (a JS object, so its
keys are unique). -/
inductive StoredAction : Type where
  | mk (id : Nat) (inst : String) (action : String) (options : List (String × Nat))
       (disabled : Bool) (children : List (String × List StoredAction))

def StoredAction.id : StoredAction → Nat
  | .mk i _ _ _ _ _ => i

def StoredAction.inst : StoredAction → String
  | .mk _ s _ _ _ _ => s

def StoredAction.action : StoredAction → String
  | .mk _ _ a _ _ _ => a

def StoredAction.options : StoredAction → List (String × Nat)
  | .mk _ _ _ o _ _ => o

def StoredAction.disabled : StoredAction → Bool
  | .mk _ _ _ _ d _ => d

def StoredAction.children : StoredAction → List (String × List StoredAction)
  | .mk _ _ _ _ _ c => c

/-- In-memory `FragmentActionInstance`: the cloned `#data` fields plus the
`#children` map of child-group lists. -/
inductive FragAction : Type where
  | mk (id : Nat) (inst : String) (action : String) (options : List (String × Nat))
       (disabled : Bool) (children : List (String × List FragAction))

def FragAction.id : FragAction → Nat
  | .mk i _ _ _ _ _ => i

def FragAction.inst : FragAction → String
  | .mk _ s _ _ _ _ => s

def FragAction.action : FragAction → String
  | .mk _ _ a _ _ _ => a

def FragAction.options : FragAction → List (String × Nat)
  | .mk _ _ _ o _ _ => o

def FragAction.disabled : FragAction → Bool
  | .mk _ _ _ _ d _ => d

def FragAction.children : FragAction → List (String × List FragAction)
  | .mk _ _ _ _ _ c => c

mutual

/-- `FragmentActionInstance` constructor (part_003 lines 66-100): deep-clones
the stored data, assigns a fresh id when `isCloned`, and for internal actions
loads each stored child group through `#getOrCreateActionGroup`, dropping a
group whose check throws (the error is caught and logged). The fresh-id
counter is threaded in place of `nanoid()`. -/
def buildAction (defs : Defs) (d : StoredAction) (isCloned : Bool) (ctr : Nat) :
    FragAction × Nat :=
  match d with
  | .mk i inst act opts dis cs =>
    let newId := if isCloned then ctr else i
    let c1 := if isCloned then ctr + 1 else ctr
    if inst = "internal" then
      let r := buildGroups defs inst act cs isCloned c1
      (.mk newId inst act opts dis r.fst, r.snd)
    else
      (.mk newId inst act opts dis [], c1)

/-- The constructor's child-group loading loop: for each stored group, the
`#getOrCreateActionGroup` checks (part_003 lines 102-124) are applied — the
definition must resolve and declare the group id — and passing groups are
loaded, failing ones skipped. -/
def buildGroups (defs : Defs) (inst act : String)
    (cs : List (String × List StoredAction)) (isCloned : Bool) (ctr : Nat) :
    List (String × List FragAction) × Nat :=
  match cs with
  | [] => ([], ctr)
  | (gid, as) :: rest =>
    match defs inst act with
    | none => buildGroups defs inst act rest isCloned ctr
    | some df =>
      if df.supportsChildActionGroups.contains gid then
        let r1 := buildList defs as isCloned ctr
        let r2 := buildGroups defs inst act rest isCloned r1.snd
        ((gid, r1.fst) :: r2.fst, r2.snd)
      else
        buildGroups defs inst act rest isCloned ctr

/-- Modelled from the spec: `FragmentActionList.loadStorage` (the
`FragmentActionList` source is not under src/) constructs one
`FragmentActionInstance` per stored action in order, passing the `isCloned`
flag through so clones receive fresh ids at every depth. -/
def buildList (defs : Defs) (as : List StoredAction) (isCloned : Bool) (ctr : Nat) :
    List FragAction × Nat :=
  match as with
  | [] => ([], ctr)
  | a :: rest =>
    let r1 := buildAction defs a isCloned ctr
    let r2 := buildList defs rest isCloned r1.snd
    (r1.fst :: r2.fst, r2.snd)

end

mutual

/-- `asActionInstance` (part_003 lines 126-141): spreads the node data and
includes the children record only when the connection is `"internal"`. -/
def FragAction.toStored : FragAction → StoredAction
  | .mk i inst act opts dis cs =>
    if inst = "internal" then .mk i inst act opts dis (groupsToStored cs)
    else .mk i inst act opts dis []

def groupsToStored : List (String × List FragAction) → List (String × List StoredAction)
  | [] => []
  | (gid, as) :: rest => (gid, listToStored as) :: groupsToStored rest

def listToStored : List FragAction → List StoredAction
  | [] => []
  | a :: rest => a.toStored :: listToStored rest

end

mutual

/-- All instance ids occurring in a stored tree, at every nesting depth. -/
def idsS : StoredAction → List Nat
  | .mk i _ _ _ _ cs => i :: idsGs cs

def idsGs : List (String × List StoredAction) → List Nat
  | [] => []
  | (_, as) :: rest => idsLs as ++ idsGs rest

def idsLs : List StoredAction → List Nat
  | [] => []
  | a :: rest => idsS a ++ idsLs rest

end

mutual

/-- All instance ids occurring in an in-memory tree, at every nesting depth. -/
def idsF : FragAction → List Nat
  | .mk i _ _ _ _ cs => i :: idsGsF cs

def idsGsF : List (String × List FragAction) → List Nat
  | [] => []
  | (_, as) :: rest => idsLsF as ++ idsGsF rest

def idsLsF : List FragAction → List Nat
  | [] => []
  | a :: rest => idsF a ++ idsLsF rest

end

mutual

/-- Erase every instance id in a stored tree (for structural comparison of
everything except identity). -/
def stripS : StoredAction → StoredAction
  | .mk _ inst act opts dis cs => .mk 0 inst act opts dis (stripGs cs)

def stripGs : List (String × List StoredAction) → List (String × List StoredAction)
  | [] => []
  | (gid, as) :: rest => (gid, stripLs as) :: stripGs rest

def stripLs : List StoredAction → List StoredAction
  | [] => []
  | a :: rest => stripS a :: stripLs rest

end

/-- Uniqueness of the keys of a JS object (stored children records always
satisfy this). -/
def keysNodup : List String → Bool
  | [] => true
  | k :: rest => (!rest.contains k) && keysNodup rest

mutual

/-- Well-formedness of a stored tree as produced by `asActionInstance` on a
live tree (the source of `controls:copy`): children records appear only under
internal actions, their keys are unique (JS object keys), and every group id
is declared by the resolved definition. -/
def wfS (defs : Defs) : StoredAction → Bool
  | .mk _ inst act _ _ cs =>
    if inst = "internal" then
      keysNodup (cs.map Prod.fst) && wfGs defs inst act cs
    else
      cs.isEmpty

def wfGs (defs : Defs) (inst act : String) : List (String × List StoredAction) → Bool
  | [] => true
  | (gid, as) :: rest =>
    (match defs inst act with
     | some df => df.supportsChildActionGroups.contains gid
     | none => false) && wfLs defs as && wfGs defs inst act rest

def wfLs (defs : Defs) : List StoredAction → Bool
  | [] => true
  | a :: rest => wfS defs a && wfLs defs rest

end

mutual

theorem buildAction_bound (defs : Defs) : ∀ (d : StoredAction) (c : Nat),
    c ≤ (buildAction defs d true c).snd ∧
    ∀ i ∈ idsF (buildAction defs d true c).fst, c ≤ i
  | .mk ident inst act opts dis cs, c => by
    have hg := buildGroups_bound defs inst act cs (c + 1)
    by_cases h : inst = "internal" <;>
      simp only [buildAction, h, if_true, if_false, ite_true, ite_false, idsF,
        List.mem_cons, List.not_mem_nil] at *
    · refine ⟨by omega, ?_⟩
      rintro i (rfl | hi)
      · omega
      · exact Nat.le_trans (Nat.le_succ _) (hg.2 i hi)
    · refine ⟨Nat.le_succ _, ?_⟩
      rintro i (rfl | hi)
      · omega
      · simp [idsGsF] at hi

theorem buildGroups_bound (defs : Defs) (inst act : String) :
    ∀ (cs : List (String × List StoredAction)) (c : Nat),
    c ≤ (buildGroups defs inst act cs true c).snd ∧
    ∀ i ∈ idsGsF (buildGroups defs inst act cs true c).fst, c ≤ i
  | [], c => by
    simp [buildGroups, idsGsF]
  | (gid, as) :: rest, c => by
    cases hdf : defs inst act with
    | none =>
      have hr := buildGroups_bound defs inst act rest c
      simp only [buildGroups, hdf]
      exact hr
    | some df =>
      by_cases hmem : df.supportsChildActionGroups.contains gid
      · have h1 := buildList_bound defs as c
        have h2 := buildGroups_bound defs inst act rest (buildList defs as true c).snd
        simp only [buildGroups, hdf, hmem, if_true, ite_true, idsGsF, List.mem_append]
        refine ⟨Nat.le_trans h1.1 h2.1, ?_⟩
        rintro i (hi | hi)
        · exact h1.2 i hi
        · exact Nat.le_trans h1.1 (h2.2 i hi)
      · have hr := buildGroups_bound defs inst act rest c
        simp only [buildGroups, hdf, hmem, if_false, ite_false, Bool.false_eq_true]
        exact hr

theorem buildList_bound (defs : Defs) : ∀ (as : List StoredAction) (c : Nat),
    c ≤ (buildList defs as true c).snd ∧
    ∀ i ∈ idsLsF (buildList defs as true c).fst, c ≤ i
  | [], c => by
    simp [buildList, idsLsF]
  | a :: rest, c => by
    have h1 := buildAction_bound defs a c
    have h2 := buildList_bound defs rest (buildAction defs a true c).snd
    simp only [buildList, idsLsF, List.mem_append]
    refine ⟨Nat.le_trans h1.1 h2.1, ?_⟩
    rintro i (hi | hi)
    · exact h1.2 i hi
    · exact Nat.le_trans h1.1 (h2.2 i hi)

end

mutual

theorem idsS_toStored_sub : ∀ (a : FragAction), ∀ i ∈ idsS a.toStored, i ∈ idsF a
  | .mk ident inst act opts dis cs => by
    by_cases h : inst = "internal" <;>
      simp only [FragAction.toStored, h, if_true, if_false, ite_true, ite_false,
        idsS, idsF, List.mem_cons]
    · rintro i (rfl | hi)
      · exact Or.inl rfl
      · exact Or.inr (idsGs_groupsToStored_sub cs i hi)
    · rintro i (rfl | hi)
      · exact Or.inl rfl
      · simp [idsGs] at hi

theorem idsGs_groupsToStored_sub :
    ∀ (cs : List (String × List FragAction)), ∀ i ∈ idsGs (groupsToStored cs), i ∈ idsGsF cs
  | [] => by simp [groupsToStored, idsGs, idsGsF]
  | (gid, as) :: rest => by
    simp only [groupsToStored, idsGs, idsGsF, List.mem_append]
    rintro i (hi | hi)
    · exact Or.inl (idsLs_listToStored_sub as i hi)
    · exact Or.inr (idsGs_groupsToStored_sub rest i hi)

theorem idsLs_listToStored_sub :
    ∀ (as : List FragAction), ∀ i ∈ idsLs (listToStored as), i ∈ idsLsF as
  | [] => by simp [listToStored, idsLs, idsLsF]
  | a :: rest => by
    simp only [listToStored, idsLs, idsLsF, List.mem_append]
    rintro i (hi | hi)
    · exact Or.inl (idsS_toStored_sub a i hi)
    · exact Or.inr (idsLs_listToStored_sub rest i hi)

end

mutual

theorem buildAction_strip (defs : Defs) : ∀ (d : StoredAction) (c : Nat),
    wfS defs d = true →
    stripS ((buildAction defs d true c).fst.toStored) = stripS d
  | .mk ident inst act opts dis cs, c => by
    intro hwf
    by_cases h : inst = "internal"
    · subst h
      simp [wfS] at hwf
      simp [buildAction, FragAction.toStored, stripS,
        buildGroups_strip defs "internal" act cs (c + 1) hwf.2]
    · simp [wfS, h] at hwf
      cases cs with
      | nil => simp [buildAction, h, FragAction.toStored, stripS, stripGs]
      | cons hd tl => simp at hwf

theorem buildGroups_strip (defs : Defs) (inst act : String) :
    ∀ (cs : List (String × List StoredAction)) (c : Nat),
    wfGs defs inst act cs = true →
    stripGs (groupsToStored (buildGroups defs inst act cs true c).fst) = stripGs cs
  | [], c => by
    intro _
    simp [buildGroups, groupsToStored, stripGs]
  | (gid, as) :: rest, c => by
    intro hwf
    simp only [wfGs, Bool.and_eq_true] at hwf
    cases hdf : defs inst act with
    | none => rw [hdf] at hwf; simp at hwf
    | some df =>
      rw [hdf] at hwf
      have hmem : df.supportsChildActionGroups.contains gid = true := hwf.1.1
      simp only [buildGroups, hdf, hmem, if_true, ite_true, groupsToStored, stripGs]
      rw [buildList_strip defs as c hwf.1.2,
        buildGroups_strip defs inst act rest (buildList defs as true c).snd hwf.2]

theorem buildList_strip (defs : Defs) : ∀ (as : List StoredAction) (c : Nat),
    wfLs defs as = true →
    stripLs (listToStored (buildList defs as true c).fst) = stripLs as
  | [], c => by
    intro _
    simp [buildList, listToStored, stripLs]
  | a :: rest, c => by
    intro hwf
    simp only [wfLs, Bool.and_eq_true] at hwf
    simp only [buildList, listToStored, stripLs]
    rw [buildAction_strip defs a c hwf.1,
      buildList_strip defs rest (buildAction defs a true c).snd hwf.2]

end

/-- C1: Copying a control deep-clones its action-instance tree through the
`FragmentActionInstance` constructor with `isCloned = true`
(`controls:copy` handler, Controller.ts lines 194-233): for any well-formed
source tree whose ids all lie below the fresh-id counter, the clone's stored
form has exactly the source's structure and option values at every nesting
depth (ids erased), and every id anywhere in the clone — including inside
nested internal child-action groups — is disjoint from the source's ids. -/
theorem copy_independence (defs : Defs) (d : StoredAction) (ctr : Nat)
    (hwf : wfS defs d = true) (hids : ∀ i ∈ idsS d, i < ctr) :
    stripS ((buildAction defs d true ctr).fst.toStored) = stripS d ∧
    ∀ i ∈ idsS ((buildAction defs d true ctr).fst.toStored), i ∉ idsS d := by
  refine ⟨buildAction_strip defs d ctr hwf, ?_⟩
  intro i hi hmem
  have h1 : i ∈ idsF (buildAction defs d true ctr).fst := idsS_toStored_sub _ i hi
  have h2 := (buildAction_bound defs d ctr).2 i h1
  have h3 := hids i hmem
  omega

/-- A sample definition registry: the internal action kind "cond" accepts the
child groups "g1" and "g2"; no other definition resolves. -/
def defsEx : Defs := fun inst act =>
  if inst = "internal" && act = "cond" then some ⟨["g1", "g2"]⟩ else none

/-- A sample source tree: an internal conditional with two external children
in one group (spec scenario 4). -/
def srcEx : StoredAction :=
  .mk 1 "internal" "cond" [("delay", 5)] false
    [("g1", [.mk 2 "dev" "power" [("state", 1)] false [],
             .mk 3 "dev" "power" [("state", 0)] false []])]

theorem copy_independence_witness :
    stripS ((buildAction defsEx srcEx true 10).fst.toStored) = stripS srcEx :=
  (copy_independence defsEx srcEx 10 (by decide) (by decide)).1

/-- A fire-and-forget RPC notification to a connection, carrying the id of the
tree node it concerns (`actionUpdate` / `actionDelete` in the per-connection
RPC surface). -/
inductive Notif where
  | update (conn : String) (nodeId : Nat)
  | delete (conn : String) (nodeId : Nat)
deriving DecidableEq

mutual

/-- `cleanup` (part_003 lines 151-165): notify the node's connection of
removal when that connection is running (`moduleHost.getChild`), then recurse
into every child group. `host` tells which connections are running. -/
def cleanupA (host : String → Bool) : FragAction → List Notif
  | .mk i inst _ _ _ cs =>
    (if host inst then [.delete inst i] else []) ++ cleanupGs host cs

def cleanupGs (host : String → Bool) : List (String × List FragAction) → List Notif
  | [] => []
  | (_, as) :: rest => cleanupLs host as ++ cleanupGs host rest

def cleanupLs (host : String → Bool) : List FragAction → List Notif
  | [] => []
  | a :: rest => cleanupA host a ++ cleanupLs host rest

end

/-- Whether a node passes the `onlyConnectionId` filter of `subscribe`. -/
def matchesOnly (only : Option String) (inst : String) : Bool :=
  match only with
  | none => true
  | some o => inst == o

mutual

/-- `subscribe` (part_003 lines 167-193): no-op when the node is disabled;
otherwise notify the node's connection of an update when the
`onlyConnectionId` filter passes — except that internal nodes issue no RPC
(the internal `actionUpdate` call is commented out in the source) and a
non-running connection is skipped — then recurse into children when
`recursive`. -/
def subscribeA (host : String → Bool) (recursive : Bool) (only : Option String) :
    FragAction → List Notif
  | .mk i inst _ _ dis cs =>
    if dis then []
    else
      (if matchesOnly only inst then
        (if inst = "internal" then []
         else if host inst then [.update inst i] else [])
       else []) ++
      (if recursive then subscribeGs host recursive only cs else [])

def subscribeGs (host : String → Bool) (recursive : Bool) (only : Option String) :
    List (String × List FragAction) → List Notif
  | [] => []
  | (_, as) :: rest =>
    subscribeLs host recursive only as ++ subscribeGs host recursive only rest

def subscribeLs (host : String → Bool) (recursive : Bool) (only : Option String) :
    List FragAction → List Notif
  | [] => []
  | a :: rest => subscribeA host recursive only a ++ subscribeLs host recursive only rest

end

/-- The reassignment step inside `setInstance`:
`this.#data.instance = instance`. -/
def reassignConn : FragAction → String → FragAction
  | .mk i _ act opts dis cs, newId => .mk i newId act opts dis cs

/-- `setInstance` (part_003 lines 218-230): first `cleanup()` against the old
connection, then reassign the stored connection id, then
`subscribe(true, instance)` restricted to the new connection. Returns the
updated node and the notification trace in program order. -/
def setInstanceA (host : String → Bool) (a : FragAction) (newId : String) :
    FragAction × List Notif :=
  (reassignConn a newId,
   cleanupA host a ++ subscribeA host true (some newId) (reassignConn a newId))

/-- Group lookup in the `#children` map. -/
def lookupGroup (a : FragAction) (gid : String) : Option (List FragAction) :=
  a.children.lookup gid

/-- `#getOrCreateActionGroup` (part_003 lines 102-124): an existing group is
returned without any check; otherwise the action must be internal, its
definition must resolve, and the definition must declare the group id, and a
fresh empty group is appended to the `#children` map. The result is the
possibly-updated node. -/
def getOrCreateActionGroup (defs : Defs) (a : FragAction) (gid : String) :
    Except String FragAction :=
  match a with
  | .mk i inst act opts dis cs =>
    match cs.lookup gid with
    | some _ => .ok (.mk i inst act opts dis cs)
    | none =>
      if inst = "internal" then
        match defs inst act with
        | none => .error "Action cannot accept children."
        | some df =>
          if df.supportsChildActionGroups.contains gid then
            .ok (.mk i inst act opts dis (cs ++ [(gid, [])]))
          else .error "Action cannot accept children in this group."
      else .error "Action cannot accept children."

/-- Append a new instance to the group `gid` of the `#children` map. -/
def appendToGroup : FragAction → String → FragAction → FragAction
  | .mk i inst act opts dis cs, gid, child =>
    .mk i inst act opts dis
      (cs.map (fun g => if g.fst = gid then (g.fst, g.snd ++ [child]) else g))

/-- Insert an existing instance at index `idx` of the group `gid`. -/
def insertInGroup : FragAction → String → Nat → FragAction → FragAction
  | .mk i inst act opts dis cs, gid, idx, child =>
    .mk i inst act opts dis
      (cs.map (fun g => if g.fst = gid then (g.fst, g.snd.insertIdx idx child) else g))

/-- `addChild` (part_003 lines 293-303): only internal actions may have
children; the stored child data is added to the group.
`FragmentActionList.addAction` is modelled from the spec (the
`FragmentActionList` source is not under src/): it constructs a new,
non-cloned instance from the stored data and appends it to the list. -/
def addChildA (defs : Defs) (a : FragAction) (gid : String) (d : StoredAction) :
    Except String FragAction :=
  if a.inst ≠ "internal" then .error "Only internal actions can have children"
  else
    match getOrCreateActionGroup defs a gid with
    | .error e => .error e
    | .ok a' => .ok (appendToGroup a' gid (buildAction defs d false 0).fst)

/-- `pushChild` (part_003 lines 344-351): `FragmentActionList.pushAction` is
modelled from the spec: the existing instance is inserted at the given index
(lifecycle not managed). -/
def pushChildA (defs : Defs) (a : FragAction) (child : FragAction) (gid : String)
    (idx : Nat) : Except String FragAction :=
  match getOrCreateActionGroup defs a gid with
  | .error e => .error e
  | .ok a' => .ok (insertInGroup a' gid idx child)

/-- `canAcceptChild` (part_003 lines 353-359) also reaches
`#getOrCreateActionGroup` and may insert an empty group; only that state
effect matters to the invariant claims. -/
def canAcceptChildA (defs : Defs) (a : FragAction) (gid : String) :
    Except String FragAction :=
  getOrCreateActionGroup defs a gid

/-- The public child-group operations of C7. -/
inductive TreeOp where
  | addChildOp (gid : String) (d : StoredAction)
  | pushChildOp (gid : String) (idx : Nat) (child : FragAction)
  | canAcceptChildOp (gid : String)

/-- Apply one child-group operation; a thrown error leaves the instance
unchanged. -/
def applyOp (defs : Defs) (a : FragAction) : TreeOp → FragAction
  | .addChildOp gid d =>
    match addChildA defs a gid d with
    | .ok a' => a'
    | .error _ => a
  | .pushChildOp gid idx child =>
    match pushChildA defs a child gid idx with
    | .ok a' => a'
    | .error _ => a
  | .canAcceptChildOp gid =>
    match canAcceptChildA defs a gid with
    | .ok a' => a'
    | .error _ => a

/-- C7's invariant: every key of the `#children` map is declared by the
owning definition's `supportsChildActionGroups`, and a non-internal action
has no children. -/
def childKeysOk (defs : Defs) (a : FragAction) : Prop :=
  (∀ gid ∈ a.children.map Prod.fst,
     ∃ df, defs a.inst a.action = some df ∧ gid ∈ df.supportsChildActionGroups) ∧
  (a.inst ≠ "internal" → a.children = [])

theorem keys_map_update (cs : List (String × List FragAction)) (gid : String)
    (f : List FragAction → List FragAction) :
    (cs.map (fun g => if g.fst = gid then (g.fst, f g.snd) else g)).map Prod.fst
      = cs.map Prod.fst := by
  induction cs with
  | nil => rfl
  | cons hd tl ih => by_cases h : hd.fst = gid <;> simp [h, ih]

theorem buildGroups_keys (defs : Defs) (inst act : String)
    (cs : List (String × List StoredAction)) (isCloned : Bool) :
    ∀ (c : Nat), ∀ gid ∈ (buildGroups defs inst act cs isCloned c).fst.map Prod.fst,
      ∃ df, defs inst act = some df ∧ gid ∈ df.supportsChildActionGroups := by
  induction cs with
  | nil => intro c gid hmem; simp [buildGroups] at hmem
  | cons hd tl ih =>
    intro c gid hmem
    obtain ⟨g, as⟩ := hd
    cases hdf : defs inst act with
    | none =>
      rw [buildGroups, hdf] at hmem
      rw [← hdf]
      exact ih c gid hmem
    | some df =>
      by_cases hc : df.supportsChildActionGroups.contains g
      · rw [buildGroups, hdf] at hmem
        simp only [hc, if_true, ite_true, List.map_cons, List.mem_cons] at hmem
        rcases hmem with rfl | hmem
        · exact ⟨df, rfl, by simpa using hc⟩
        · rw [← hdf]; exact ih _ gid hmem
      · rw [buildGroups, hdf] at hmem
        simp only [hc, if_false, ite_false, Bool.false_eq_true] at hmem
        rw [← hdf]
        exact ih c gid hmem

theorem buildAction_establishes (defs : Defs) (d : StoredAction) (isCloned : Bool)
    (ctr : Nat) : childKeysOk defs (buildAction defs d isCloned ctr).fst := by
  cases d with
  | mk i inst act opts dis cs =>
    by_cases h : inst = "internal"
    · subst h
      simp only [buildAction, if_true, ite_true]
      constructor
      · intro gid hmem
        simp only [FragAction.children, FragAction.inst, FragAction.action] at *
        exact buildGroups_keys defs "internal" act cs isCloned _ gid (by simpa using hmem)
      · intro hni
        simp [FragAction.inst] at hni
    · simp only [buildAction, h, if_false, ite_false]
      exact ⟨by intro gid hmem; simp [FragAction.children] at hmem,
             by intro _; simp [FragAction.children]⟩

theorem getOrCreate_ok_spec (defs : Defs) (a a' : FragAction) (gid : String)
    (h : getOrCreateActionGroup defs a gid = .ok a') :
    a'.inst = a.inst ∧ a'.action = a.action ∧
    (a.inst = "internal" ∨ a.children ≠ []) ∧
    (a'.children.map Prod.fst = a.children.map Prod.fst ∨
      (a'.children.map Prod.fst = a.children.map Prod.fst ++ [gid] ∧
       ∃ df, defs a.inst a.action = some df ∧ gid ∈ df.supportsChildActionGroups)) := by
  cases a with
  | mk i inst act opts dis cs =>
    simp only [getOrCreateActionGroup] at h
    split at h
    · rename_i g hl
      simp only [Except.ok.injEq] at h
      subst h
      refine ⟨rfl, rfl, Or.inr ?_, Or.inl rfl⟩
      simp only [FragAction.children]
      intro hc; subst hc; simp [List.lookup] at hl
    · rename_i hl
      split at h
      · rename_i hi
        split at h
        · simp at h
        · rename_i df hdf
          split at h
          · rename_i hc
            simp only [Except.ok.injEq] at h
            subst h
            refine ⟨rfl, rfl, Or.inl hi, Or.inr ⟨?_, df, ?_, by simpa using hc⟩⟩
            · simp [FragAction.children]
            · simpa [FragAction.inst, FragAction.action] using hdf
          · simp at h
      · simp at h

theorem getOrCreate_preserves (defs : Defs) (a a' : FragAction) (gid : String)
    (hinv : childKeysOk defs a) (h : getOrCreateActionGroup defs a gid = .ok a') :
    childKeysOk defs a' ∧ a'.inst = a.inst ∧ a.inst = "internal" := by
  obtain ⟨hi, ha, hsrc, hkeys⟩ := getOrCreate_ok_spec defs a a' gid h
  have hint : a.inst = "internal" := by
    rcases hsrc with h1 | h1
    · exact h1
    · by_contra hni
      exact h1 (hinv.2 hni)
  refine ⟨⟨?_, ?_⟩, hi, hint⟩
  · intro gid' hmem
    rw [hi, ha]
    rcases hkeys with hk | ⟨hk, df, hdf, hdfmem⟩
    · exact hinv.1 gid' (hk ▸ hmem)
    · rw [hk] at hmem
      rcases List.mem_append.mp hmem with hmem' | hmem'
      · exact hinv.1 gid' hmem'
      · simp only [List.mem_singleton] at hmem'
        subst hmem'
        exact ⟨df, hdf, hdfmem⟩
  · intro hni
    rw [hi, hint] at hni
    exact absurd rfl hni

theorem mapGroup_keysOk (defs : Defs) (a : FragAction) (gid : String)
    (f : List FragAction → List FragAction)
    (hinv : childKeysOk defs a) (hint : a.inst = "internal") :
    childKeysOk defs
      (match a with
       | .mk i inst act opts dis cs =>
         FragAction.mk i inst act opts dis
           (cs.map (fun g => if g.fst = gid then (g.fst, f g.snd) else g))) := by
  cases a with
  | mk i inst act opts dis cs =>
    refine ⟨?_, ?_⟩
    · intro gid' hmem
      simp only [FragAction.children, keys_map_update] at hmem
      simpa [FragAction.inst, FragAction.action] using hinv.1 gid' hmem
    · intro hni
      simp only [FragAction.inst] at hni hint
      exact absurd hint hni

theorem applyOp_preserves (defs : Defs) (a : FragAction) (op : TreeOp)
    (hinv : childKeysOk defs a) : childKeysOk defs (applyOp defs a op) := by
  cases op with
  | addChildOp gid d =>
    simp only [applyOp, addChildA]
    by_cases hni : a.inst ≠ "internal"
    · rw [if_pos hni]; exact hinv
    · rw [if_neg hni]
      cases hg : getOrCreateActionGroup defs a gid with
      | error e => exact hinv
      | ok a' =>
        obtain ⟨hinv', hi, hint⟩ := getOrCreate_preserves defs a a' gid hinv hg
        have := mapGroup_keysOk defs a' gid (fun l => l ++ [(buildAction defs d false 0).fst])
          hinv' (hi.trans hint)
        cases a' with
        | mk i' inst' act' opts' dis' cs' => simpa [appendToGroup] using this
  | pushChildOp gid idx child =>
    simp only [applyOp, pushChildA]
    cases hg : getOrCreateActionGroup defs a gid with
    | error e => exact hinv
    | ok a' =>
      obtain ⟨hinv', hi, hint⟩ := getOrCreate_preserves defs a a' gid hinv hg
      have := mapGroup_keysOk defs a' gid (fun l => l.insertIdx idx child)
        hinv' (hi.trans hint)
      cases a' with
      | mk i' inst' act' opts' dis' cs' => simpa [insertInGroup] using this
  | canAcceptChildOp gid =>
    simp only [applyOp, canAcceptChildA]
    cases hg : getOrCreateActionGroup defs a gid with
    | error e => exact hinv
    | ok a' => exact (getOrCreate_preserves defs a a' gid hinv hg).1

theorem foldl_preserves_childKeysOk (defs : Defs) (ops : List TreeOp) :
    ∀ (a : FragAction), childKeysOk defs a →
      childKeysOk defs (ops.foldl (applyOp defs) a) := by
  induction ops with
  | nil => intro a h; exact h
  | cons op rest ih =>
    intro a h
    exact ih (applyOp defs a op) (applyOp_preserves defs a op h)

/-- C7: After constructing an action instance from any stored data and
applying any sequence of `addChild`, `pushChild` and `canAcceptChild`
operations, every key of the `#children` map is declared by the owning
definition's `supportsChildActionGroups`, and a non-internal instance has an
empty children map. -/
theorem children_keys_invariant (defs : Defs) (d : StoredAction) (isCloned : Bool)
    (ctr : Nat) (ops : List TreeOp) :
    childKeysOk defs (ops.foldl (applyOp defs) (buildAction defs d isCloned ctr).fst) :=
  foldl_preserves_childKeysOk defs ops _ (buildAction_establishes defs d isCloned ctr)

/-- C4 (amended): `addChild` on an action whose connection is not
`"internal"` always fails with the capability error and never mutates state
(the guard throws before any mutation); `#getOrCreateActionGroup` fails when
the requested group is not already present and the action is not internal,
or the definition does not resolve, or it does not declare the group id —
but a group already present in the `#children` map is returned without any
check. -/
theorem child_group_guard (defs : Defs) (a : FragAction) (gid : String)
    (d : StoredAction) :
    (a.inst ≠ "internal" →
      addChildA defs a gid d = .error "Only internal actions can have children") ∧
    (lookupGroup a gid = none → a.inst ≠ "internal" →
      getOrCreateActionGroup defs a gid = .error "Action cannot accept children.") ∧
    (lookupGroup a gid = none → a.inst = "internal" → defs a.inst a.action = none →
      getOrCreateActionGroup defs a gid = .error "Action cannot accept children.") ∧
    (∀ df, lookupGroup a gid = none → a.inst = "internal" →
      defs a.inst a.action = some df →
      df.supportsChildActionGroups.contains gid = false →
      getOrCreateActionGroup defs a gid
        = .error "Action cannot accept children in this group.") := by
  cases a with
  | mk i inst act opts dis cs =>
    simp only [FragAction.inst, FragAction.action, lookupGroup, FragAction.children]
    refine ⟨?_, ?_, ?_, ?_⟩
    · intro hni
      simp [addChildA, FragAction.inst, hni]
    · intro hl hni
      simp [getOrCreateActionGroup, hl, hni]
    · intro hl hint hdf
      subst hint
      simp [getOrCreateActionGroup, hl, hdf]
    · intro df hl hint hdf hc
      subst hint
      have hc' : gid ∉ df.supportsChildActionGroups := by simpa using hc
      simp [getOrCreateActionGroup, hl, hdf, hc']

/-- The `setInstance` escape hatch used to refute the unconditional form of
the child-group guard: an internal action constructed with an existing child
group, whose connection is then reassigned away from `"internal"`. Its
`#children` map retains the group. -/
def strandedNode : FragAction :=
  (setInstanceA (fun _ => false) (buildAction defsEx srcEx false 0).fst "dev").fst

theorem child_group_guard_counterexample :
    strandedNode.inst ≠ "internal" ∧
    getOrCreateActionGroup defsEx strandedNode "g1" = .ok strandedNode :=
  ⟨by decide, rfl⟩

theorem child_group_guard_witness :
    addChildA defsEx (FragAction.mk 9 "dev" "power" [] false []) "g1" srcEx
      = .error "Only internal actions can have children" :=
  (child_group_guard defsEx (FragAction.mk 9 "dev" "power" [] false []) "g1" srcEx).1
    (by decide)

mutual

theorem subscribe_only_shape (host : String → Bool) (o : String) :
    ∀ (a : FragAction) (r : Bool), ∀ n ∈ subscribeA host r (some o) a,
      ∃ j, n = .update o j ∧ j ∈ idsF a
  | .mk i inst act opts dis cs, r => by
    intro n hn
    simp only [subscribeA] at hn
    by_cases hd : dis = true
    · simp [hd] at hn
    · simp only [hd, if_false, ite_false, List.mem_append, Bool.false_eq_true] at hn
      rcases hn with hn | hn
      · by_cases hm : matchesOnly (some o) inst = true
        · simp only [hm, if_true, ite_true] at hn
          by_cases hi : inst = "internal"
          · simp [hi] at hn
          · by_cases hh : host inst = true
            · simp only [hi, hh, if_true, ite_true, if_false, ite_false,
                List.mem_singleton, Bool.false_eq_true] at hn
              subst hn
              have ho : inst = o := by simpa [matchesOnly] using hm
              exact ⟨i, by rw [ho], by simp [idsF]⟩
            · simp [hi, hh] at hn
        · simp [hm] at hn
      · by_cases hr : r = true
        · simp only [hr, if_true, ite_true] at hn
          obtain ⟨j, hj1, hj2⟩ := subscribeGs_only_shape host o cs true n hn
          exact ⟨j, hj1, by simp [idsF, hj2]⟩
        · simp [hr] at hn

theorem subscribeGs_only_shape (host : String → Bool) (o : String) :
    ∀ (cs : List (String × List FragAction)) (r : Bool),
      ∀ n ∈ subscribeGs host r (some o) cs, ∃ j, n = .update o j ∧ j ∈ idsGsF cs
  | [], r => by intro n hn; simp [subscribeGs] at hn
  | (g, as) :: rest, r => by
    intro n hn
    simp only [subscribeGs, List.mem_append] at hn
    rcases hn with hn | hn
    · obtain ⟨j, h1, h2⟩ := subscribeLs_only_shape host o as r n hn
      exact ⟨j, h1, by simp [idsGsF, h2]⟩
    · obtain ⟨j, h1, h2⟩ := subscribeGs_only_shape host o rest r n hn
      exact ⟨j, h1, by simp [idsGsF, h2]⟩

theorem subscribeLs_only_shape (host : String → Bool) (o : String) :
    ∀ (as : List FragAction) (r : Bool),
      ∀ n ∈ subscribeLs host r (some o) as, ∃ j, n = .update o j ∧ j ∈ idsLsF as
  | [], r => by intro n hn; simp [subscribeLs] at hn
  | a :: rest, r => by
    intro n hn
    simp only [subscribeLs, List.mem_append] at hn
    rcases hn with hn | hn
    · obtain ⟨j, h1, h2⟩ := subscribe_only_shape host o a r n hn
      exact ⟨j, h1, by simp [idsLsF, h2]⟩
    · obtain ⟨j, h1, h2⟩ := subscribeLs_only_shape host o rest r n hn
      exact ⟨j, h1, by simp [idsLsF, h2]⟩

end

/-- C3 (amended): `setInstance` first runs `cleanup()` against the old
connection, then reassigns the stored connection id, then subscribes
recursively restricted to the new connection id; the trace is exactly the
cleanup notifications followed by the restricted subscribe notifications, the
old connection never receives an update after the reassignment, and the new
connection receives exactly one update for the node itself when the node is
enabled, the new connection id is not `"internal"`, and the new connection is
running — and none otherwise (subscribe is a no-op on disabled nodes,
internal nodes issue no RPC, and a stopped connection is skipped). -/
theorem set_connection_order (host : String → Bool) (a : FragAction) (newId : String)
    (hne : a.inst ≠ newId) (hfresh : a.id ∉ idsGsF a.children) :
    (setInstanceA host a newId).fst.inst = newId ∧
    (setInstanceA host a newId).snd
      = cleanupA host a ++ subscribeA host true (some newId) (reassignConn a newId) ∧
    (∀ j, Notif.update a.inst j ∉
      subscribeA host true (some newId) (reassignConn a newId)) ∧
    (subscribeA host true (some newId) (reassignConn a newId)).count
        (Notif.update newId a.id)
      = (if a.disabled = false ∧ newId ≠ "internal" ∧ host newId = true
         then 1 else 0) := by
  obtain ⟨i, inst, act, opts, dis, cs⟩ := a
  simp only [FragAction.inst, FragAction.id, FragAction.disabled,
    FragAction.children] at hne hfresh ⊢
  refine ⟨by simp [setInstanceA, reassignConn, FragAction.inst], rfl, ?_, ?_⟩
  · intro j hj
    obtain ⟨j', h1, _⟩ :=
      subscribe_only_shape host newId (reassignConn (.mk i inst act opts dis cs) newId)
        true _ hj
    have : inst = newId := by
      injection h1
    exact hne this
  · simp only [reassignConn, subscribeA]
    by_cases hd : dis = true
    · simp [hd]
    · have hnm : Notif.update newId i ∉ subscribeGs host true (some newId) cs := by
        intro hmem
        obtain ⟨j, h1, h2⟩ := subscribeGs_only_shape host newId cs true _ hmem
        have : i = j := by injection h1
        exact hfresh (this ▸ h2)
      have hz : (subscribeGs host true (some newId) cs).count (Notif.update newId i)
          = 0 := List.count_eq_zero.mpr hnm
      by_cases hi : newId = "internal"
      · subst hi
        simp [hd, matchesOnly, List.count_append, hz]
      · by_cases hh : host newId = true
        · simp [hd, hi, hh, matchesOnly, List.count_append, hz]
        · simp [hd, hi, hh, matchesOnly, List.count_append, hz]

/-- A disabled external action instance: `setInstance` on it issues no update
at all to the new connection, refuting the unconditional "exactly one
create/update". -/
def disabledNode : FragAction := .mk 5 "olddev" "power" [] true []

theorem set_connection_counterexample :
    disabledNode.inst ≠ "newdev" ∧
    (setInstanceA (fun _ => true) disabledNode "newdev").snd.count
        (Notif.update "newdev" disabledNode.id) = 0 :=
  ⟨by decide, by decide⟩

theorem set_connection_order_witness :
    (subscribeA (fun _ => true) true (some "newdev")
        (reassignConn (FragAction.mk 7 "olddev" "power" [] false []) "newdev")).count
      (Notif.update "newdev" 7) = 1 := by
  have h := (set_connection_order (fun _ => true)
    (FragAction.mk 7 "olddev" "power" [] false []) "newdev"
    (by decide) (by decide)).2.2.2
  simpa using h

/-- A broadcast on the learn-notification channel
(`io.emitToRoom(ActiveLearnRoom, ...)`). -/
inductive LearnEvent where
  | add (id : String)
  | remove (id : String)
deriving DecidableEq

/-- The controller state relevant to learn deduplication: the process-wide
`#activeLearnRequests` set, the broadcasts issued so far, and the number of
external learn RPCs invoked. -/
structure LearnState where
  active : List String
  events : List LearnEvent
  rpcCalls : Nat
deriving DecidableEq

/-- `#setIsLearning` (Controller.ts lines 1228-1236): add or delete the id in
the active set and broadcast the change to the learn-notification room. -/
def setIsLearning (s : LearnState) (id : String) (isActive : Bool) : LearnState :=
  if isActive then
    { s with active := if s.active.contains id then s.active else s.active ++ [id],
             events := s.events ++ [.add id] }
  else
    { s with active := s.active.filter (fun x => !(x == id)),
             events := s.events ++ [.remove id] }

/-- The learn-deduplication core shared by the `controls:action:learn`
(lines 521-547) and `controls:feedback:learn` (lines 346-372) handlers: fail
if the id is already active (the thrown error leaves all state untouched);
otherwise mark it learning and invoke the async learn RPC once. -/
def startLearn (s : LearnState) (id : String) : Except String LearnState :=
  if s.active.contains id then .error "Learn is already running"
  else
    let s1 := setIsLearning s id true
    .ok { s1 with rpcCalls := s1.rpcCalls + 1 }

/-- The completion continuation attached to the learn promise:
`.catch(log).then(() => setIsLearning(id, false))` — it runs exactly once
whether the learn resolved or rejected. -/
def finishLearn (s : LearnState) (id : String) (_succeeded : Bool) : LearnState :=
  setIsLearning s id false

/-- C2: Learn mutual exclusion. If the id is already in the active-learn set,
`startLearn` fails with "Learn is already running", issuing no RPC and
changing no state (the error is thrown before any mutation); otherwise it
adds the id, broadcasts the addition, invokes exactly one learn RPC, and on
completion — success or failure alike — the id is removed and the removal
broadcast exactly once, restoring the original active set. -/
theorem learn_mutual_exclusion (s : LearnState) (id : String) :
    (s.active.contains id = true →
      startLearn s id = .error "Learn is already running") ∧
    (s.active.contains id = false →
      startLearn s id = .ok { active := s.active ++ [id],
                              events := s.events ++ [.add id],
                              rpcCalls := s.rpcCalls + 1 } ∧
      ∀ outcome : Bool,
        finishLearn { active := s.active ++ [id],
                      events := s.events ++ [.add id],
                      rpcCalls := s.rpcCalls + 1 } id outcome
          = { active := s.active,
              events := s.events ++ [.add id, .remove id],
              rpcCalls := s.rpcCalls + 1 }) := by
  constructor
  · intro h
    have h' : id ∈ s.active := by simpa using h
    simp [startLearn, h']
  · intro h
    have h' : id ∉ s.active := by simpa using h
    constructor
    · simp [startLearn, h', setIsLearning]
    · intro outcome
      have hid : id ∉ s.active := by simpa using h
      have hfilter : (s.active ++ [id]).filter (fun x => !(x == id)) = s.active := by
        rw [List.filter_append]
        have h1 : s.active.filter (fun x => !(x == id)) = s.active := by
          apply List.filter_eq_self.mpr
          intro x hx
          simp only [Bool.not_eq_true', beq_eq_false_iff_ne, ne_eq]
          intro hxe
          subst hxe
          exact hid hx
        have h2 : ([id] : List String).filter (fun x => !(x == id)) = [] := by simp
        rw [h1, h2, List.append_nil]
      simp [finishLearn, setIsLearning, hfilter, List.append_assoc]

theorem learn_mutual_exclusion_witness :
    startLearn { active := ["f1"], events := [], rpcCalls := 1 } "f1"
      = .error "Learn is already running" :=
  (learn_mutual_exclusion { active := ["f1"], events := [], rpcCalls := 1 } "f1").1
    (by decide)

/-- A `ControlLocation`: `{ pageNumber, row, column }`. -/
structure Loc where
  pageNumber : Nat
  row : Nat
  column : Nat
deriving DecidableEq

/-- Observable side effects of the controller's structural commands. -/
inductive Effect where
  | destroyControl (cid : String)
  | dbDelete (cid : String)
  | locationChanged (cid : String)
  | emberUpdate (loc : Loc)
  | invalidate (loc : Loc)
deriving DecidableEq

/-- Modelled from the spec: the Addressing collaborator (spec section 6) maps
each Location to at most one ControlId; its store is embedded as an
association list with first-match lookup. `getControlIdAt`. -/
def lookupLoc : List (Loc × String) → Loc → Option String
  | [], _ => none
  | e :: rest, l => if e.fst = l then some e.snd else lookupLoc rest l

/-- Modelled from the spec: `setControlIdAt(location, null)` clears the
binding for a Location. -/
def clearLoc : List (Loc × String) → Loc → List (Loc × String)
  | [], _ => []
  | e :: rest, l => if e.fst = l then clearLoc rest l else e :: clearLoc rest l

/-- Modelled from the spec: `setControlIdAt(location, id | null)`. -/
def setLoc (b : List (Loc × String)) (l : Loc) (v : Option String) :
    List (Loc × String) :=
  match v with
  | none => clearLoc b l
  | some cid => (l, cid) :: clearLoc b l

/-- Modelled from the spec: `getLocationOfControlId`. -/
def findLocOf : List (Loc × String) → String → Option Loc
  | [], _ => none
  | e :: rest, cid => if e.snd = cid then some e.fst else findLocOf rest cid

/-- The controller-level state the structural commands touch: page validity,
the Location bindings, the control registry (ids suffice for these claims),
the persisted `controls` table keys, and the emitted side effects in program
order. -/
structure CtrlState where
  validPages : Nat → Bool
  bindings : List (Loc × String)
  controls : List String
  db : List String
  effects : List Effect

/-- `ControlsController.deleteControl` (Controller.ts lines 1177-1196): if the
control exists, destroy it (tree cleanup), drop it from the registry and the
persisted table; then, if some Location is bound to the id, clear that
binding, notify emberplus, and invalidate the Location's rendering. -/
def deleteControl (s : CtrlState) (cid : String) : CtrlState :=
  let s1 :=
    if s.controls.contains cid then
      { s with controls := s.controls.erase cid,
               db := s.db.erase cid,
               effects := s.effects ++ [.destroyControl cid, .dbDelete cid] }
    else s
  match findLocOf s1.bindings cid with
  | some loc =>
      { s1 with bindings := setLoc s1.bindings loc none,
                effects := s1.effects ++ [.emberUpdate loc, .invalidate loc] }
  | none => s1

/-- The `controls:move` handler (Controller.ts lines 234-269): no-op returning
false when moving onto itself, onto an invalid page, or from an empty
Location; otherwise delete any control at the destination, rebind, notify the
moved control that its location changed, invalidate both Locations — and
still return false. -/
def controlsMove (s : CtrlState) (fromLoc toLoc : Loc) : CtrlState × Bool :=
  if fromLoc = toLoc then (s, false)
  else if s.validPages toLoc.pageNumber = false then (s, false)
  else
    match lookupLoc s.bindings fromLoc with
    | none => (s, false)
    | some fromId =>
      let s1 :=
        match lookupLoc s.bindings toLoc with
        | some toId => deleteControl s toId
        | none => s
      let b1 := setLoc s1.bindings fromLoc none
      let b2 := setLoc b1 toLoc (some fromId)
      let s2 := { s1 with bindings := b2 }
      let s3 :=
        if s2.controls.contains fromId then
          { s2 with effects := s2.effects ++ [.locationChanged fromId] }
        else s2
      ({ s3 with effects := s3.effects ++ [.invalidate fromLoc, .invalidate toLoc] },
       false)

/-- The `controls:swap` handler (Controller.ts lines 270-302): no-op returning
false when swapping with itself or when either page is invalid; otherwise
exchange the two Locations' bindings (empty sides included), notify both
occupants, invalidate both Locations, and return true. -/
def controlsSwap (s : CtrlState) (fromLoc toLoc : Loc) : CtrlState × Bool :=
  if fromLoc = toLoc then (s, false)
  else if s.validPages toLoc.pageNumber = false ∨ s.validPages fromLoc.pageNumber = false
  then (s, false)
  else
    let fromId := lookupLoc s.bindings fromLoc
    let toId := lookupLoc s.bindings toLoc
    let b1 := setLoc s.bindings toLoc none
    let b2 := setLoc b1 fromLoc toId
    let b3 := setLoc b2 toLoc fromId
    let e1 :=
      match fromId with
      | some cid => if s.controls.contains cid then [Effect.locationChanged cid] else []
      | none => []
    let e2 :=
      match toId with
      | some cid => if s.controls.contains cid then [Effect.locationChanged cid] else []
      | none => []
    ({ s with bindings := b3,
              effects := s.effects ++ e1 ++ e2
                ++ [.invalidate fromLoc, .invalidate toLoc] },
     true)

theorem lookupLoc_clearLoc_self (b : List (Loc × String)) (l : Loc) :
    lookupLoc (clearLoc b l) l = none := by
  induction b with
  | nil => rfl
  | cons e rest ih =>
    by_cases h : e.fst = l <;> simp [clearLoc, h, lookupLoc, ih]

theorem lookupLoc_clearLoc_other (b : List (Loc × String)) (l l' : Loc)
    (h : l' ≠ l) : lookupLoc (clearLoc b l) l' = lookupLoc b l' := by
  induction b with
  | nil => rfl
  | cons e rest ih =>
    by_cases he : e.fst = l
    · have hne : e.fst ≠ l' := by rw [he]; exact fun hh => h hh.symm
      simp [clearLoc, he, lookupLoc, hne, ih, h, Ne.symm h]
    · by_cases he' : e.fst = l' <;>
        simp [clearLoc, he, lookupLoc, he', ih, h, Ne.symm h]

theorem lookupLoc_setLoc_self (b : List (Loc × String)) (l : Loc)
    (v : Option String) : lookupLoc (setLoc b l v) l = v := by
  cases v with
  | none => simp [setLoc, lookupLoc_clearLoc_self]
  | some cid => simp [setLoc, lookupLoc]

theorem lookupLoc_setLoc_other (b : List (Loc × String)) (l l' : Loc)
    (v : Option String) (h : l' ≠ l) :
    lookupLoc (setLoc b l v) l' = lookupLoc b l' := by
  cases v with
  | none => exact lookupLoc_clearLoc_other b l l' h
  | some cid =>
    have hne : l ≠ l' := fun hh => h hh.symm
    simp [setLoc, lookupLoc, hne, lookupLoc_clearLoc_other b l l' h]

/-- A sample controller state: pages 0-3 valid, one bank control bound at
page 1, row 0, column 0. -/
def stateEx : CtrlState :=
  { validPages := fun p => decide (p ≤ 3),
    bindings := [(⟨1, 0, 0⟩, "bank:a")],
    controls := ["bank:a"],
    db := ["bank:a"],
    effects := [] }

/-- C6: `controls:move` is a pure no-op returning false — no binding change,
no location-changed notification, no invalidation — when moving a Location
onto itself, and equally when the destination page is invalid or the source
Location is empty. -/
theorem move_self_noop (s : CtrlState) (fromLoc toLoc : Loc)
    (h : fromLoc = toLoc ∨ s.validPages toLoc.pageNumber = false ∨
         lookupLoc s.bindings fromLoc = none) :
    controlsMove s fromLoc toLoc = (s, false) := by
  rcases h with h | h | h
  · simp [controlsMove, h]
  · by_cases he : fromLoc = toLoc
    · simp [controlsMove, he]
    · simp [controlsMove, he, h]
  · by_cases he : fromLoc = toLoc
    · simp [controlsMove, he]
    · by_cases hv : s.validPages toLoc.pageNumber = false
      · simp [controlsMove, he, hv]
      · simp only [Bool.not_eq_false] at hv
        simp [controlsMove, he, hv, h]

theorem move_self_noop_witness :
    controlsMove stateEx ⟨1, 0, 0⟩ ⟨1, 0, 0⟩ = (stateEx, false) :=
  move_self_noop stateEx ⟨1, 0, 0⟩ ⟨1, 0, 0⟩ (Or.inl rfl)

/-- C10: the `controls:move` handler returns false on every input — also when
all preconditions hold and the move is actually performed (here the
destination binding really changes) — so a caller cannot tell success from
rejection by the returned value, unlike `controls:swap` which returns true
when it executes. -/
theorem move_always_returns_false :
    (∀ (s : CtrlState) (fromLoc toLoc : Loc),
      (controlsMove s fromLoc toLoc).snd = false) ∧
    lookupLoc (controlsMove stateEx ⟨1, 0, 0⟩ ⟨2, 0, 0⟩).fst.bindings ⟨2, 0, 0⟩
      = some "bank:a" ∧
    lookupLoc stateEx.bindings ⟨2, 0, 0⟩ = none ∧
    (controlsMove stateEx ⟨1, 0, 0⟩ ⟨2, 0, 0⟩).snd = false ∧
    (controlsSwap stateEx ⟨1, 0, 0⟩ ⟨2, 0, 0⟩).snd = true := by
  refine ⟨?_, by decide, by decide, by decide, by decide⟩
  intro s fromLoc toLoc
  rw [controlsMove]
  split
  · rfl
  · split
    · rfl
    · split
      · rfl
      · rfl

/-- C8: deleting a controlId absent from the registry (and, by the
Location-ControlId partial bijection, bound at no Location) raises no error
and changes nothing — registry, persisted table, bindings, and effects all
unchanged; deleting a present controlId destroys its tree, removes the
registry and persisted entries, and if a Location was bound to it, clears
that binding and invalidates it. -/
theorem delete_idempotent (s : CtrlState) (cid : String) :
    (s.controls.contains cid = false → findLocOf s.bindings cid = none →
      deleteControl s cid = s) ∧
    (s.controls.contains cid = true →
      (deleteControl s cid).controls = s.controls.erase cid ∧
      (deleteControl s cid).db = s.db.erase cid ∧
      Effect.destroyControl cid ∈ (deleteControl s cid).effects ∧
      Effect.dbDelete cid ∈ (deleteControl s cid).effects ∧
      ∀ loc, findLocOf s.bindings cid = some loc →
        lookupLoc (deleteControl s cid).bindings loc = none ∧
        Effect.invalidate loc ∈ (deleteControl s cid).effects) := by
  constructor
  · intro h1 h2
    have h1' : cid ∉ s.controls := by simpa using h1
    simp [deleteControl, h1', h2]
  · intro h1
    have h1' : cid ∈ s.controls := by simpa using h1
    cases hf : findLocOf s.bindings cid with
    | none =>
      refine ⟨by simp [deleteControl, h1', hf], by simp [deleteControl, h1', hf],
              by simp [deleteControl, h1', hf], by simp [deleteControl, h1', hf], ?_⟩
      intro loc' hl
      exact absurd hl (by simp)
    | some loc =>
      refine ⟨by simp [deleteControl, h1', hf], by simp [deleteControl, h1', hf],
              by simp [deleteControl, h1', hf], by simp [deleteControl, h1', hf], ?_⟩
      intro loc' hl
      injection hl with hll
      subst hll
      constructor
      · simp [deleteControl, h1', hf, lookupLoc_setLoc_self]
      · simp [deleteControl, h1', hf]

theorem delete_idempotent_witness :
    deleteControl stateEx "bank:zzz" = stateEx :=
  (delete_idempotent stateEx "bank:zzz").1 (by decide) (by decide)

theorem controlsSwap_executes (s : CtrlState) (fromLoc toLoc : Loc)
    (hne : fromLoc ≠ toLoc)
    (hvf : s.validPages fromLoc.pageNumber = true)
    (hvt : s.validPages toLoc.pageNumber = true) :
    (controlsSwap s fromLoc toLoc).fst.bindings
      = setLoc (setLoc (setLoc s.bindings toLoc none) fromLoc
          (lookupLoc s.bindings toLoc)) toLoc (lookupLoc s.bindings fromLoc) ∧
    (controlsSwap s fromLoc toLoc).fst.validPages = s.validPages ∧
    (controlsSwap s fromLoc toLoc).snd = true := by
  refine ⟨?_, ?_, ?_⟩ <;> simp [controlsSwap, hne, hvf, hvt]

theorem swap_bindings_spec (b : List (Loc × String)) (fromLoc toLoc : Loc)
    (hne : fromLoc ≠ toLoc) :
    lookupLoc (setLoc (setLoc (setLoc b toLoc none) fromLoc (lookupLoc b toLoc))
        toLoc (lookupLoc b fromLoc)) toLoc = lookupLoc b fromLoc ∧
    lookupLoc (setLoc (setLoc (setLoc b toLoc none) fromLoc (lookupLoc b toLoc))
        toLoc (lookupLoc b fromLoc)) fromLoc = lookupLoc b toLoc ∧
    ∀ l, l ≠ fromLoc → l ≠ toLoc →
      lookupLoc (setLoc (setLoc (setLoc b toLoc none) fromLoc (lookupLoc b toLoc))
          toLoc (lookupLoc b fromLoc)) l = lookupLoc b l := by
  refine ⟨lookupLoc_setLoc_self _ _ _, ?_, ?_⟩
  · rw [lookupLoc_setLoc_other _ _ _ _ hne, lookupLoc_setLoc_self]
  · intro l h1 h2
    rw [lookupLoc_setLoc_other _ _ _ _ h2, lookupLoc_setLoc_other _ _ _ _ h1,
      lookupLoc_setLoc_other _ _ _ _ h2]

/-- C5: for distinct Locations on valid pages, `controls:swap` twice in
succession restores every Location's binding exactly — including when one or
both Locations are empty (the lookups may return none and are rebound
unchanged). -/
theorem swap_involution (s : CtrlState) (fromLoc toLoc : Loc)
    (hne : fromLoc ≠ toLoc)
    (hvf : s.validPages fromLoc.pageNumber = true)
    (hvt : s.validPages toLoc.pageNumber = true) :
    ∀ l, lookupLoc
        ((controlsSwap (controlsSwap s fromLoc toLoc).fst fromLoc toLoc).fst).bindings l
      = lookupLoc s.bindings l := by
  intro l
  have he := controlsSwap_executes s fromLoc toLoc hne hvf hvt
  have hvf1 : (controlsSwap s fromLoc toLoc).fst.validPages fromLoc.pageNumber = true := by
    rw [he.2.1]; exact hvf
  have hvt1 : (controlsSwap s fromLoc toLoc).fst.validPages toLoc.pageNumber = true := by
    rw [he.2.1]; exact hvt
  have he2 := controlsSwap_executes (controlsSwap s fromLoc toLoc).fst fromLoc toLoc
    hne hvf1 hvt1
  rw [he2.1, he.1]
  have hs1 := swap_bindings_spec s.bindings fromLoc toLoc hne
  have hs2 := swap_bindings_spec
    (setLoc (setLoc (setLoc s.bindings toLoc none) fromLoc (lookupLoc s.bindings toLoc))
      toLoc (lookupLoc s.bindings fromLoc)) fromLoc toLoc hne
  by_cases h1 : l = fromLoc
  · subst h1
    rw [hs2.2.1, hs1.1]
  · by_cases h2 : l = toLoc
    · subst h2
      rw [hs2.1, hs1.2.1]
    · rw [hs2.2.2 l h1 h2, hs1.2.2 l h1 h2]

theorem swap_involution_witness :
    lookupLoc ((controlsSwap (controlsSwap stateEx ⟨1, 0, 0⟩ ⟨2, 0, 0⟩).fst
        ⟨1, 0, 0⟩ ⟨2, 0, 0⟩).fst).bindings ⟨1, 0, 0⟩
      = lookupLoc stateEx.bindings ⟨1, 0, 0⟩ :=
  swap_involution stateEx ⟨1, 0, 0⟩ ⟨2, 0, 0⟩ (by decide) (by decide) (by decide) ⟨1, 0, 0⟩

/-- A trigger control's reorder-relevant state: its ControlId and its
`sortOrder` option. -/
structure Trigger where
  controlId : String
  sortOrder : Nat
deriving DecidableEq

/-- Modelled from the spec: `ParseControlId` (shared package, not under src/)
recognises the tagged trigger form of a ControlId and
`#validateTriggerControlId` accepts exactly those; the reorder handler
consumes only the Boolean verdict, so the recogniser is abstracted. -/
def TriggerIdCheck : Type := String → Bool

/-- The first loop of the `triggers:set-order` handler (Controller.ts lines
841-844): `triggerIds.forEach((id, index) => ...)` sets the listed control's
`sortOrder` option to its position. Trigger controls always support options
(`ControlTrigger` is not under src/; per the spec the trigger variant carries
options). -/
def phase1 : List Trigger → List String → Nat → List Trigger
  | ts, [], _ => ts
  | ts, id :: rest, n =>
    phase1 (ts.map fun t => if t.controlId = id then { t with sortOrder := n } else t)
      rest (n + 1)

/-- `getAllTriggers()` sorted by current `sortOrder`
(`sort((a, b) => a.sortOrder - b.sortOrder)`; JS sort is stable and
ascending, embedded as a stable merge sort). -/
def sortTriggers (ts : List Trigger) : List Trigger :=
  ts.mergeSort (fun a b => decide (a.sortOrder ≤ b.sortOrder))

/-- The second loop (lines 846-856): walk the sorted triggers, assigning
`nextIndex++` to each control whose id was not among the specified ids; the
assignments are collected as an association list. -/
def assignSeq (ids : List String) : List Trigger → Nat → List (String × Nat)
  | [], _ => []
  | t :: rest, n =>
    if ids.contains t.controlId then assignSeq ids rest n
    else (t.controlId, n) :: assignSeq ids rest (n + 1)

/-- The `triggers:set-order` handler (Controller.ts lines 833-859): filter the
ids to valid trigger ids, renumber each listed existing trigger to its list
position, then renumber every unlisted trigger consecutively starting at the
list's length, visiting them in ascending order of current `sortOrder`. -/
def setOrder (validId : TriggerIdCheck) (triggers : List Trigger)
    (ids0 : List String) : List Trigger :=
  let ids := ids0.filter validId
  let ts1 := phase1 triggers ids 0
  let assign := assignSeq ids (sortTriggers ts1) ids.length
  ts1.map fun t =>
    match assign.lookup t.controlId with
    | some v => { t with sortOrder := v }
    | none => t

/-- The unlisted triggers in the order the second loop visits them: ascending
in the `sortOrder` they carried when the sort ran. -/
def unlistedSorted (validId : TriggerIdCheck) (triggers : List Trigger)
    (ids0 : List String) : List Trigger :=
  (sortTriggers (phase1 triggers (ids0.filter validId) 0)).filter
    (fun t => !(ids0.filter validId).contains t.controlId)

/-- First index of a string in a list. -/
def idxOf? : List String → String → Option Nat
  | [], _ => none
  | x :: rest, s => if x = s then some 0 else (idxOf? rest s).map (· + 1)

theorem idxOf?_eq_none (l : List String) (s : String) (h : s ∉ l) :
    idxOf? l s = none := by
  induction l with
  | nil => rfl
  | cons x rest ih =>
    simp only [List.mem_cons, not_or] at h
    have hx : x ≠ s := fun hh => h.1 hh.symm
    simp [idxOf?, hx, ih h.2]

theorem idxOf?_mem (l : List String) (s : String) :
    ∀ k, idxOf? l s = some k → s ∈ l := by
  induction l with
  | nil => intro k h; simp [idxOf?] at h
  | cons x rest ih =>
    intro k h
    by_cases hx : x = s
    · simp [hx]
    · simp only [idxOf?, hx, if_false, ite_false] at h
      cases hk : idxOf? rest s with
      | none => rw [hk] at h; simp at h
      | some k' => exact List.mem_cons_of_mem x (ih k' hk)

theorem phase1_eq (ids : List String) : ids.Nodup →
    ∀ (ts : List Trigger) (n : Nat),
    phase1 ts ids n = ts.map (fun t =>
      match idxOf? ids t.controlId with
      | some k => { t with sortOrder := n + k }
      | none => t) := by
  induction ids with
  | nil =>
    intro _ ts n
    simp [phase1, idxOf?]
  | cons id rest ih =>
    intro hnd ts n
    rw [List.nodup_cons] at hnd
    rw [phase1, ih hnd.2, List.map_map]
    congr 1
    funext t
    by_cases hc : t.controlId = id
    · simp [Function.comp, hc, idxOf?, idxOf?_eq_none rest id hnd.1]
    · have hc' : id ≠ t.controlId := fun hh => hc hh.symm
      cases hk : idxOf? rest t.controlId with
      | none => simp [Function.comp, hc, hc', idxOf?, hk]
      | some k =>
        simp [Function.comp, hc, hc', idxOf?, hk]
        omega

theorem assignSeq_lookup_listed (ids : List String) (c : String)
    (hc : ids.contains c = true) :
    ∀ (ts : List Trigger) (n : Nat), (assignSeq ids ts n).lookup c = none := by
  intro ts
  induction ts with
  | nil => intro n; rfl
  | cons t rest ih =>
    intro n
    by_cases h : ids.contains t.controlId = true
    · simp only [assignSeq, h, if_true, ite_true]
      exact ih n
    · have hne : (c == t.controlId) = false := by
        simp only [beq_eq_false_iff_ne, ne_eq]
        intro hh
        rw [hh] at hc
        exact h hc
      simp only [assignSeq, h, if_false, ite_false, Bool.false_eq_true, List.lookup, hne]
      exact ih (n + 1)

theorem assignSeq_lookup_unlisted (ids : List String) :
    ∀ (ts : List Trigger) (n j : Nat) (u : Trigger),
      (ts.map Trigger.controlId).Nodup →
      (ts.filter (fun t => !ids.contains t.controlId)).get? j = some u →
      (assignSeq ids ts n).lookup u.controlId = some (n + j) := by
  intro ts
  induction ts with
  | nil => intro n j u _ hg; simp [List.get?] at hg
  | cons t rest ih =>
    intro n j u hnd hg
    rw [List.map_cons, List.nodup_cons] at hnd
    by_cases hct : ids.contains t.controlId = true
    · rw [List.filter_cons] at hg
      simp only [hct, Bool.not_true, if_false, ite_false, Bool.false_eq_true] at hg
      simp only [assignSeq, hct, if_true, ite_true]
      exact ih n j u hnd.2 hg
    · rw [List.filter_cons] at hg
      simp only [hct, Bool.not_false, if_true, ite_true, Bool.not_eq_true'] at hg
      cases j with
      | zero =>
        rw [List.get?] at hg
        injection hg with hg
        subst hg
        have hct' : t.controlId ∉ ids := by simpa using hct
        simp [assignSeq, hct', List.lookup]
      | succ j' =>
        rw [List.get?] at hg
        have hmemu : u ∈ rest :=
          List.mem_of_mem_filter (List.get?_mem hg)
        have hne : (u.controlId == t.controlId) = false := by
          simp only [beq_eq_false_iff_ne, ne_eq]
          intro hh
          exact hnd.1 (hh ▸ List.mem_map_of_mem Trigger.controlId hmemu)
        simp only [assignSeq, hct, if_false, ite_false, Bool.false_eq_true,
          List.lookup, hne]
        rw [ih (n + 1) j' u hnd.2 hg]
        congr 1
        omega

theorem phase1_fun_controlId (ids : List String) (n : Nat) (t : Trigger) :
    (match idxOf? ids t.controlId with
     | some k => { t with sortOrder := n + k }
     | none => t).controlId = t.controlId := by
  cases idxOf? ids t.controlId <;> rfl

/-- C9: `triggers:set-order` renumbering. For a duplicate-free list of valid
trigger ids: every listed existing trigger's final `sortOrder` equals its
index in the list; the unlisted-trigger visit sequence consists exactly of
the registry's triggers absent from the list, in ascending order of their
prior `sortOrder`; and its `j`-th trigger ends with `sortOrder` equal to the
list's length plus `j` — unspecified triggers are renumbered after specified
ones, in their prior order. -/
theorem triggers_set_order (validId : TriggerIdCheck)
    (triggers : List Trigger) (ids0 : List String)
    (hval : ∀ id ∈ ids0, validId id = true)
    (hnd : ids0.Nodup)
    (htn : (triggers.map Trigger.controlId).Nodup) :
    (∀ t ∈ triggers, ∀ k, idxOf? ids0 t.controlId = some k →
      ∃ t' ∈ setOrder validId triggers ids0, t'.controlId = t.controlId ∧ t'.sortOrder = k) ∧
    (∀ u ∈ unlistedSorted validId triggers ids0,
      u ∈ triggers ∧ ids0.contains u.controlId = false) ∧
    (∀ t ∈ triggers, ids0.contains t.controlId = false →
      t ∈ unlistedSorted validId triggers ids0) ∧
    List.Pairwise (fun a b => a.sortOrder ≤ b.sortOrder)
      (unlistedSorted validId triggers ids0) ∧
    (∀ j u, (unlistedSorted validId triggers ids0).get? j = some u →
      ∃ t' ∈ setOrder validId triggers ids0,
        t'.controlId = u.controlId ∧ t'.sortOrder = ids0.length + j) := by
  have hfil : ids0.filter validId = ids0 := List.filter_eq_self.mpr hval
  have hp1 := phase1_eq ids0 hnd triggers 0
  have hts1map : (phase1 triggers ids0 0).map Trigger.controlId
      = triggers.map Trigger.controlId := by
    rw [hp1, List.map_map]
    congr 1
    funext t
    exact phase1_fun_controlId ids0 0 t
  have hnd1 : ((phase1 triggers ids0 0).map Trigger.controlId).Nodup := by
    rw [hts1map]; exact htn
  have hperm : (sortTriggers (phase1 triggers ids0 0)).Perm (phase1 triggers ids0 0) :=
    List.mergeSort_perm _ _
  have hndS : ((sortTriggers (phase1 triggers ids0 0)).map Trigger.controlId).Nodup :=
    (hperm.map Trigger.controlId).nodup_iff.mpr hnd1
  have hpw : List.Pairwise
      (fun a b : Trigger => decide (a.sortOrder ≤ b.sortOrder) = true)
      (sortTriggers (phase1 triggers ids0 0)) := by
    rw [sortTriggers]
    apply List.sorted_mergeSort
    · intro a b c h1 h2
      simp only [decide_eq_true_eq] at h1 h2 ⊢
      omega
    · intro a b
      simp only [Bool.or_eq_true, decide_eq_true_eq]
      omega
  refine ⟨?_, ?_, ?_, ?_, ?_⟩
  · intro t ht k hk
    have hcontains : ids0.contains t.controlId = true := by
      simpa using idxOf?_mem ids0 t.controlId k hk
    simp only [setOrder, hfil]
    rw [hp1, List.map_map]
    refine ⟨_, List.mem_map_of_mem _ ht, ?_, ?_⟩
    · simp only [Function.comp, hk,
        assignSeq_lookup_listed ids0 t.controlId hcontains]
    · simp only [Function.comp, hk,
        assignSeq_lookup_listed ids0 t.controlId hcontains]
      omega
  · intro u hu
    simp only [unlistedSorted, hfil] at hu
    obtain ⟨huS, hup⟩ := List.mem_filter.mp hu
    have hupc : ids0.contains u.controlId = false := by simpa using hup
    have huts1 : u ∈ phase1 triggers ids0 0 := hperm.mem_iff.mp huS
    rw [hp1] at huts1
    obtain ⟨t, ht, hut⟩ := List.mem_map.mp huts1
    cases hk : idxOf? ids0 t.controlId with
    | some k =>
      rw [hk] at hut
      have hc : ids0.contains u.controlId = true := by
        rw [← hut]
        simpa using idxOf?_mem ids0 t.controlId k hk
      rw [hupc] at hc
      exact absurd hc (by simp)
    | none =>
      rw [hk] at hut
      exact ⟨hut ▸ ht, hupc⟩
  · intro t ht htc
    simp only [unlistedSorted, hfil]
    apply List.mem_filter.mpr
    refine ⟨?_, by simpa using htc⟩
    apply hperm.mem_iff.mpr
    rw [hp1]
    have hFt : (match idxOf? ids0 t.controlId with
        | some k => { t with sortOrder := 0 + k }
        | none => t) = t := by
      rw [idxOf?_eq_none ids0 t.controlId (by simpa using htc)]
    exact hFt ▸ List.mem_map_of_mem _ ht
  · have hsub : (unlistedSorted validId triggers ids0).Sublist
        (sortTriggers (phase1 triggers ids0 0)) := by
      simp only [unlistedSorted, hfil]
      exact List.filter_sublist _
    exact (List.Pairwise.sublist hsub hpw).imp (fun h => by simpa using h)
  · intro j u hg
    simp only [unlistedSorted, hfil] at hg
    have hlook := assignSeq_lookup_unlisted ids0
      (sortTriggers (phase1 triggers ids0 0)) ids0.length j u hndS hg
    have huS : u ∈ sortTriggers (phase1 triggers ids0 0) :=
      List.mem_of_mem_filter (List.get?_mem hg)
    have huts1 : u ∈ phase1 triggers ids0 0 := hperm.mem_iff.mp huS
    simp only [setOrder, hfil]
    refine ⟨_, List.mem_map_of_mem _ huts1, ?_, ?_⟩
    · simp only [hlook]
    · simp only [hlook]

theorem triggers_set_order_witness :
    ∃ t' ∈ setOrder (fun s => s == "trigger:a" || s == "trigger:b")
        [⟨"trigger:a", 0⟩, ⟨"trigger:b", 1⟩] ["trigger:b"],
      t'.controlId = "trigger:b" ∧ t'.sortOrder = 0 :=
  (triggers_set_order (fun s => s == "trigger:a" || s == "trigger:b")
    [⟨"trigger:a", 0⟩, ⟨"trigger:b", 1⟩] ["trigger:b"]
    (by decide) (by decide) (by decide)).1 ⟨"trigger:b", 1⟩ (by decide) 0 (by decide)
